import Mathlib

/-!
Verification of the schema-guided extraction core specified for the
py-llm-core example repository.  The visible source
(`src/examples/toulmin-model-argument-analysis.py`) declares a six-field
schema (a dataclass) and a prompt template and delegates the extraction work
to the external `llm_core.assistants.LLaMACPPAssistant`, whose code is not
under `src/`; that extraction layer (SchemaDescriptor, PromptRenderer,
ResponseExtractor, RetryController) is therefore modelled here from the
specification, while the schema, template and `analyze` entry point are
embedded from the source file.
-/

namespace SchemaGuided

/-! ## Character-level helpers -/

/-- Whitespace recognizer used for trimming field values. -/
def isWS (c : Char) : Bool := c = ' ' || c = '\n' || c = '\t' || c = '\r'

/-- Trim leading and trailing whitespace from a character list. -/
def trimChars (l : List Char) : List Char :=
  ((l.dropWhile isWS).reverse.dropWhile isWS).reverse

/-- Lower-case every character (used for case-insensitive matching). -/
def lowerChars (l : List Char) : List Char := l.map Char.toLower

/-- Decimal digit accumulator for number coercion. -/
def digitsToNatAux : List Char → Nat → Option Nat
  | [], acc => some acc
  | c :: cs, acc =>
    if c.isDigit then digitsToNatAux cs (acc * 10 + (c.toNat - '0'.toNat))
    else none

/-- Modelled from the spec: "number is parsed with standard decimal rules"
(§4.2); the missing `llm_core` coercion layer is modelled over decimal
integers, with an optional leading minus sign. -/
def parseIntC : List Char → Option Int
  | [] => none
  | c :: cs =>
    if c = '-' then
      match cs with
      | [] => none
      | _ => (digitsToNatAux cs 0).map (fun n => -(n : Int))
    else (digitsToNatAux (c :: cs) 0).map (fun n => (n : Int))

/-- Split a character list at every comma (the fixed list delimiter
convention of §4.2). -/
def splitComma : List Char → List (List Char)
  | [] => [[]]
  | c :: cs =>
    if c = ',' then [] :: splitComma cs
    else
      match splitComma cs with
      | [] => [[c]]
      | h :: t => (c :: h) :: t

/-! ## The field-block framing convention (§6)

Modelled from the spec: a per-field block is introduced by a unique
field-name marker (`'@'` followed by the field name and `':'`); the value
text runs until the next marker or the end of the text.  A nested sub-block
is isolated by wrapping it in `'{'`/`'}'`; the value scanner only recognises
a marker at brace depth zero, so a nested sub-block reads as a single value
of its enclosing field. -/

/-- Skip free text until the first marker character. -/
def dropToMarker : List Char → List Char
  | [] => []
  | c :: cs => if c = '@' then c :: cs else dropToMarker cs

/-- After a marker character, read the field name up to the `':'`. -/
def readName : List Char → Option (List Char × List Char)
  | [] => none
  | c :: cs =>
    if c = ':' then some ([], cs)
    else
      match readName cs with
      | none => none
      | some (nm, rest) => some (c :: nm, rest)

/-- Brace-depth bookkeeping for the value scanner. -/
def stepDepth (c : Char) (d : Nat) : Nat :=
  if c = '{' then d + 1 else if c = '}' then d - 1 else d

/-- Read a field value: all characters until the next marker at brace depth
zero (or the end of the text). -/
def readValue : List Char → Nat → List Char × List Char
  | [], _ => ([], [])
  | c :: cs, d =>
    if c = '@' && d == 0 then ([], c :: cs)
    else
      match readValue cs (stepDepth c d) with
      | (v, rest) => (c :: v, rest)

/-- Fuel-indexed block scanner (one unit of fuel per block; the wrapper
`scanBlocks` supplies more fuel than any input can consume). -/
def scanBlocksF : Nat → List Char → List (List Char × List Char)
  | 0, _ => []
  | fuel + 1, cs =>
    match dropToMarker cs with
    | [] => []
    | _ :: rest =>
      match readName rest with
      | none => []
      | some (nm, rest1) =>
        let p := readValue rest1 0
        (nm, p.1) :: scanBlocksF fuel p.2

/-- Modelled from the spec: the ResponseExtractor's scan of the raw text for
the delimited per-field blocks of the framing convention (§4.2, §6); the
`llm_core` extractor itself is not under `src/`.  Blocks may appear out of
textual order; each is located later by its name marker. -/
def scanBlocks (cs : List Char) : List (List Char × List Char) :=
  scanBlocksF (cs.length + 1) cs

/-! ## Data model (§3) -/

mutual
/-- Modelled from the spec: the semantic type of one field of a
SchemaDescriptor (§3): text, number, boolean, enumerated set, nested record
or sequence thereof; the `llm_core` schema layer is not under `src/`. -/
inductive FieldKind where
  | text : FieldKind
  | number : FieldKind
  | boolean : FieldKind
  | enum (allowed : List String) : FieldKind
  | listOf (elem : FieldKind) : FieldKind
  | nested (sub : SchemaFields) : FieldKind
deriving Repr, DecidableEq

/-- Modelled from the spec: a SchemaDescriptor (§3) as an ordered sequence
of FieldSpec entries, each a name, a kind and an optional hint. -/
inductive SchemaFields where
  | nil : SchemaFields
  | cons (name : String) (kind : FieldKind) (hint : Option String)
      (rest : SchemaFields) : SchemaFields
deriving Repr, DecidableEq
end

/-- The ordered list of field names of a schema. -/
def fieldNames : SchemaFields → List String
  | .nil => []
  | .cons nm _ _ rest => nm :: fieldNames rest

/-- Number of fields of a schema. -/
def fieldCount : SchemaFields → Nat
  | .nil => 0
  | .cons _ _ _ rest => fieldCount rest + 1

/-- Append two schemas. -/
def appendS : SchemaFields → SchemaFields → SchemaFields
  | .nil, t => t
  | .cons nm k h rest, t => .cons nm k h (appendS rest t)

/-- The kind recorded for a name (first occurrence), if any. -/
def lookupKind : SchemaFields → String → Option FieldKind
  | .nil, _ => none
  | .cons nm k _ rest, n => if nm = n then some k else lookupKind rest n

/-- Does every field of the schema have kind `text`? -/
def textOnly : SchemaFields → Bool
  | .nil => true
  | .cons _ k _ rest =>
    (match k with | .text => true | _ => false) && textOnly rest

/-- A typed value recovered by extraction. -/
inductive Value where
  | vText (s : String) : Value
  | vNumber (n : Int) : Value
  | vBool (b : Bool) : Value
  | vList (items : List Value) : Value
  | vRecord (fields : List (String × Value)) : Value
deriving Repr

/-- An ExtractedRecord per §3: a mapping from field name to typed value. -/
abbrev ExtractedRecord := List (String × Value)

/-- The error taxonomy of §7. -/
inductive ErrKind where
  | templateError : ErrKind
  | modelUnavailable : ErrKind
  | missingField : ErrKind
  | typeMismatch : ErrKind
  | enumMismatch : ErrKind
  | exhausted : ErrKind
deriving Repr, DecidableEq

/-- An ExtractionError per §3: kind, optional field, and detail text. -/
structure ExtractionError where
  kind : ErrKind
  field : Option String
  detail : String
deriving Repr, DecidableEq

/-- Truthy tokens recognised by boolean coercion (§4.2). -/
def truthyTokens : List (List Char) := ["true", "yes"].map String.data

/-- Falsy tokens recognised by boolean coercion (§4.2). -/
def falsyTokens : List (List Char) := ["false", "no"].map String.data

/-! ## The coercion / parsing core (§4.2) -/

/-- Fail-fast effectful map over list elements: stops at the first element
whose coercion fails, never touching the later ones (§4.2). -/
def mapMExcept (f : List Char → Except ExtractionError Value) :
    List (List Char) → Except ExtractionError (List Value)
  | [] => .ok []
  | e :: es => do
    let v ← f e
    let vs ← mapMExcept f es
    .ok (v :: vs)

mutual
/-- Modelled from the spec: per-kind coercion of an isolated field segment
(§4.2); the `llm_core` extractor is not under `src/`.  Text is taken
verbatim, trimmed; number uses decimal rules; boolean recognises a closed
set of case-insensitive tokens; enum needs a case-insensitive match to an
allowed value, reporting the attempted value in the detail; list-of splits
on commas and coerces each element, failing on the first bad one; nested
recursively parses the brace-isolated sub-block. -/
def coerce : String → FieldKind → List Char → Except ExtractionError Value
  | _, .text, seg => .ok (.vText ⟨trimChars seg⟩)
  | nm, .number, seg =>
    match parseIntC (trimChars seg) with
    | some n => .ok (.vNumber n)
    | none => .error ⟨.typeMismatch, some nm, ⟨trimChars seg⟩⟩
  | nm, .boolean, seg =>
    if lowerChars (trimChars seg) ∈ truthyTokens then .ok (.vBool true)
    else if lowerChars (trimChars seg) ∈ falsyTokens then .ok (.vBool false)
    else .error ⟨.typeMismatch, some nm, ⟨trimChars seg⟩⟩
  | nm, .enum allowed, seg =>
    match allowed.find? (fun a => lowerChars a.data == lowerChars (trimChars seg)) with
    | some a => .ok (.vText a)
    | none => .error ⟨.enumMismatch, some nm, ⟨trimChars seg⟩⟩
  | nm, .listOf ek, seg =>
    (mapMExcept (fun e => coerce nm ek (trimChars e))
      (splitComma (trimChars seg))).map .vList
  | nm, .nested sub, seg =>
    match trimChars seg with
    | '{' :: rest =>
      if rest.getLast? = some '}' then
        (parseFields sub (scanBlocks rest.dropLast)).map .vRecord
      else .error ⟨.typeMismatch, some nm, ⟨trimChars seg⟩⟩
    | _ => .error ⟨.typeMismatch, some nm, ⟨trimChars seg⟩⟩

/-- Modelled from the spec: walk the schema fields in order, locate each
field's block by its name marker among the scanned blocks, and coerce the
isolated segment; fail fast on the first problem, reporting `missingField`
naming the field whose marker is absent (§4.2). -/
def parseFields : SchemaFields → List (List Char × List Char) →
    Except ExtractionError ExtractedRecord
  | .nil, _ => .ok []
  | .cons nm k _ rest, blocks =>
    match blocks.find? (fun b => b.1 == nm.data) with
    | none => .error ⟨.missingField, some nm, "marker not found"⟩
    | some b => do
      let v ← coerce nm k b.2
      let r ← parseFields rest blocks
      .ok ((nm, v) :: r)
end

/-- Modelled from the spec: `parse(raw_response, schema)` of the
ResponseExtractor (§4.2), producing a fully populated typed record or a
structured failure; the `llm_core` extractor is not under `src/`. -/
def parse (raw : String) (schema : SchemaFields) :
    Except ExtractionError ExtractedRecord :=
  parseFields schema (scanBlocks raw.data)

/-! ## Conforming responses (render side of the framing convention)

To state the round-trip properties, a response that "conforms exactly to the
field-block convention" is one assembled from per-field raw segments by the
very framing the PromptRenderer instructs the model to honor: one block per
field, a name marker followed by the segment text, nested records framed as
brace-wrapped sub-responses. -/

mutual
/-- A raw (textual) value for one field of a conforming response: either a
primitive segment or a nested sub-record of raw fields. -/
inductive RawVal where
  | prim (s : List Char) : RawVal
  | sub (fields : RawFields) : RawVal
deriving Repr

/-- The raw fields of a conforming response, in order. -/
inductive RawFields where
  | nil : RawFields
  | cons (name : String) (rv : RawVal) (rest : RawFields) : RawFields
deriving Repr
end

mutual
/-- The value text a conforming response carries for a raw value: primitive
segments verbatim, nested records brace-wrapped. -/
def rawText : RawVal → List Char
  | .prim s => s
  | .sub fs => '{' :: (renderBlocks fs ++ ['}'])

/-- Assemble a conforming response: one `@name:`-marked block per field. -/
def renderBlocks : RawFields → List Char
  | .nil => []
  | .cons nm rv rest => '@' :: (nm.data ++ ':' :: (rawText rv ++ renderBlocks rest))
end

/-- The names of a raw response's fields, in order. -/
def rawNames : RawFields → List String
  | .nil => []
  | .cons nm _ rest => nm :: rawNames rest

/-- The block list a conforming response should scan to. -/
def rawBlocks : RawFields → List (List Char × List Char)
  | .nil => []
  | .cons nm rv rest => (nm.data, rawText rv) :: rawBlocks rest

/-- Number of raw fields. -/
def rawCount : RawFields → Nat
  | .nil => 0
  | .cons _ _ rest => rawCount rest + 1

/-- Append raw fields. -/
def appendF : RawFields → RawFields → RawFields
  | .nil, t => t
  | .cons nm rv rest, t => .cons nm rv (appendF rest t)

/-- A character that may appear in a primitive segment or a field name
without interfering with the framing convention. -/
def plainChar (c : Char) : Bool := !(c = '@' || c = '{' || c = '}' || c = ':')

mutual
/-- A raw value is clean when its primitive segments avoid the framing
metacharacters, recursively. -/
def cleanV : RawVal → Bool
  | .prim s => s.all plainChar
  | .sub fs => cleanF fs

/-- Raw fields are clean when names and values avoid the metacharacters. -/
def cleanF : RawFields → Bool
  | .nil => true
  | .cons nm rv rest => nm.data.all plainChar && cleanV rv && cleanF rest
end

/-- The value each field of a conforming response decodes to, per its kind:
the field-wise coercion of the raw segments, in schema order, fail-fast. -/
def decodeFields : SchemaFields → RawFields → Except ExtractionError ExtractedRecord
  | .nil, .nil => .ok []
  | .cons nm k _ fs, .cons _ rv rs => do
    let v ← coerce nm k (rawText rv)
    let r ← decodeFields fs rs
    .ok ((nm, v) :: r)
  | _, _ => .error ⟨.typeMismatch, none, "shape mismatch"⟩

/-- Build an all-text schema from a list of field names. -/
def textSchemaOf : List String → SchemaFields
  | [] => .nil
  | nm :: rest => .cons nm .text none (textSchemaOf rest)

/-- Build raw fields from (name, text) pairs. -/
def rawOfTexts : List (String × String) → RawFields
  | [] => .nil
  | (nm, s) :: rest => .cons nm (.prim s.data) (rawOfTexts rest)

/-! ## PromptRenderer (§4.1) -/

/-- One-pass template substitution, as a state machine over the template
characters: outside a placeholder (`inPh = false`) characters are copied to
the reversed output accumulator `out`; inside a placeholder (`inPh = true`)
characters accumulate the reversed placeholder name `nmAcc` until the
closing brace, where the named argument is substituted — a missing argument
or an unterminated placeholder is a TemplateError. -/
def substAux (args : List (String × String)) :
    List Char → Bool → List Char → List Char → Except ExtractionError (List Char)
  | [], false, _, out => .ok out.reverse
  | [], true, _, _ => .error ⟨.templateError, none, "unterminated placeholder"⟩
  | c :: cs, false, _, out =>
    if c = '{' then substAux args cs true [] out
    else substAux args cs false [] (c :: out)
  | c :: cs, true, nmAcc, out =>
    if c = '}' then
      match args.find? (fun p => p.1.data == nmAcc.reverse) with
      | none => .error ⟨.templateError, some ⟨nmAcc.reverse⟩, "missing argument"⟩
      | some p => substAux args cs false [] (p.2.data.reverse ++ out)
    else substAux args cs true (c :: nmAcc) out

/-- Modelled from the spec: the placeholder substitution step of
`PromptRenderer.render` (§4.1); the `llm_core` renderer is not under
`src/`.  Unused arguments are ignored; a missing argument is a
TemplateError. -/
def substitute (template : String) (args : List (String × String)) :
    Except ExtractionError String :=
  (substAux args template.data false [] []).map (fun l => ⟨l⟩)

/-- One-pass placeholder scan, mirroring the states of `substAux`: the
names referenced by the template in order, or `none` when a placeholder is
unterminated. -/
def phAux : List Char → Bool → List Char → Option (List String)
  | [], false, _ => some []
  | [], true, _ => none
  | c :: cs, false, _ =>
    if c = '{' then phAux cs true [] else phAux cs false []
  | c :: cs, true, nmAcc =>
    if c = '}' then (phAux cs false []).map (fun l => (⟨nmAcc.reverse⟩ : String) :: l)
    else phAux cs true (c :: nmAcc)

/-- The named placeholders a template references, in order. -/
def placeholders (t : String) : Option (List String) :=
  phAux t.data false []

/-- A short human-readable description of a kind, for the formatting
block. -/
def kindName : FieldKind → String
  | .text => "text"
  | .number => "number"
  | .boolean => "boolean"
  | .enum allowed => "one of " ++ String.intercalate ", " allowed
  | .listOf ek => "list of " ++ kindName ek
  | .nested sub => "nested record with fields " ++ String.intercalate ", " (fieldNames sub)

/-- One formatting line per schema field: its marker, kind and hint. -/
def fieldLines : SchemaFields → String
  | .nil => ""
  | .cons nm k h rest =>
    "@" ++ nm ++ ": " ++ kindName k ++
      (match h with | none => "" | some t => " -- " ++ t) ++ "\n" ++ fieldLines rest

/-- Modelled from the spec: the deterministic formatting block appended
after the substituted template, enumerating field names, kinds and hints and
fixing the framing convention (§4.1). -/
def formatBlock (schema : SchemaFields) : String :=
  "Respond with one block per field, each introduced by its marker, as @name:value.\n"
    ++ fieldLines schema

/-- Modelled from the spec: the corrective note placed ahead of the
reissued formatting block on repair attempts, naming the failed field and
why it failed (§4.1). -/
def correctiveNote : Option ExtractionError → String
  | none => ""
  | some e =>
    "The previous response could not be parsed. Field " ++ e.field.getD "?" ++
      " failed: " ++ e.detail ++ ". Please follow the format exactly.\n"

/-- Modelled from the spec: `PromptRenderer.render` (§4.1): substitute the
arguments into the template, then append the corrective note (on repair
attempts) and the schema-derived formatting block; pure in its inputs. -/
def render (template : String) (args : List (String × String))
    (schema : SchemaFields) (priorError : Option ExtractionError) :
    Except ExtractionError String :=
  (substitute template args).map
    (fun body => body ++ "\n" ++ correctiveNote priorError ++ formatBlock schema)

/-! ## RetryController (§4.3) -/

/-- An ExtractionAttempt per §3: the rendered prompt, the raw response when
the model produced one, and the attempt's outcome.  One entry is recorded
per issued model call. -/
structure ExtractionAttempt where
  rendered_prompt : String
  raw_response : Option String
  outcome : Except ExtractionError ExtractedRecord
deriving Repr

/-- Modelled from the spec: the Rendering → Completing → Parsing loop of
`RetryController.extract` (§4.3); the `llm_core` controller is not under
`src/`.  `remaining` counts the attempts still allowed; `attempt` is the
0-based index of the next attempt; `complete` is the ModelSession's
completion operation, indexed by attempt; a model failure is propagated
immediately as `modelUnavailable`, a parse failure is retried with the
failure passed to the renderer until attempts are exhausted, and exhaustion
surfaces the last parse error augmented with the attempt count. -/
def extractLoop (template : String) (args : List (String × String))
    (schema : SchemaFields) (complete : Nat → Except Unit String)
    (attempt : Nat) (priorError : Option ExtractionError)
    (log : List ExtractionAttempt) :
    Nat → Except ExtractionError ExtractedRecord × List ExtractionAttempt
  | 0 => (.error ⟨.exhausted, none, "no attempts configured"⟩, log)
  | remaining + 1 =>
    match render template args schema priorError with
    | .error e => (.error e, log)
    | .ok prompt =>
      match complete attempt with
      | .error _ =>
        (.error ⟨.modelUnavailable, none, "model session failed"⟩,
          log ++ [⟨prompt, none, .error ⟨.modelUnavailable, none, "model session failed"⟩⟩])
      | .ok raw =>
        match parse raw schema with
        | .ok rec => (.ok rec, log ++ [⟨prompt, some raw, .ok rec⟩])
        | .error pe =>
          if remaining = 0 then
            (.error ⟨.exhausted, pe.field,
                pe.detail ++ " (attempts: " ++ toString (attempt + 1) ++ ")"⟩,
              log ++ [⟨prompt, some raw, .error pe⟩])
          else
            extractLoop template args schema complete (attempt + 1) (some pe)
              (log ++ [⟨prompt, some raw, .error pe⟩]) remaining

/-- Modelled from the spec: `RetryController.extract` (§4.3, §6): render,
complete, parse, with bounded retry and corrective prompting; returns the
outcome together with the per-attempt history (one entry per issued model
call). -/
def extract (template : String) (args : List (String × String))
    (schema : SchemaFields) (complete : Nat → Except Unit String)
    (maxAttempts : Nat) :
    Except ExtractionError ExtractedRecord × List ExtractionAttempt :=
  extractLoop template args schema complete 0 none [] maxAttempts

/-! ## The example's schema, template and entry point
(src/examples/toulmin-model-argument-analysis.py) -/

/-- The `prompt` template of the `ToulminArgumentAnalysis` dataclass,
embedded byte-exactly from the source (lines 346-387). -/
def toulminPrompt : String :=
  "\n    Developed by philosopher Stephen E. Toulmin, the Toulmin\n    method is a style of argumentation that breaks arguments down into six\n    component parts:\n\n    - claim\n    - grounds\n    - warrant\n    - qualifier\n    - rebuttal\n    - backing.\n\n    In Toulminâ€™s method, every argument begins with three fundamental parts:\n    - the claim\n    - the grounds\n    - the warrant\n\n    A claim is the assertion that authors would like to prove to their audience.\n    It is, in other words, the main argument.\n\n    The grounds of an argument are the evidence and facts that help support the claim.\n\n    Finally, the warrant, which is either implied or stated explicitly,\n    is the assumption that links the grounds to the claim.\n\n    Backing refers to any additional support of the warrant.\n    In many cases, the warrant is implied, and therefore the backing provides\n    support for the warrant by giving a specific example that justifies the warrant.\n\n    The qualifier shows that a claim may not be true in all circumstances.\n    Words like â€śpresumably,â€ť â€śsome,â€ť and â€śmanyâ€ť help your audience understand\n    that you know there are instances where your claim may not be correct.\n\n    The rebuttal is an acknowledgement of another valid view of the situation.\n\n    Here is a text we'd like to analyze:\n    ```\n    {content}\n    ```\n\n    > Perform a Toulmin analysis on the previous text.\n    "

/-- The `system_prompt` of the dataclass (line 345). -/
def toulminSystemPrompt : String := "You are a argumentation analysis expert"

/-- The six dataclass fields of `ToulminArgumentAnalysis` (lines 388-393),
all annotated `str`, in declaration order. -/
def toulminSchema : SchemaFields :=
  .cons "claim" .text none
    (.cons "grounds" .text none
      (.cons "warrant" .text none
        (.cons "qualifier" .text none
          (.cons "rebuttal" .text none
            (.cons "backing" .text none .nil)))))

/-- The keyword arguments `ToulminArgumentAnalysis.analyze` supplies:
exactly `content=content` (line 398). -/
def analyzeArgs (content : String) : List (String × String) :=
  [("content", content)]

/-- `ToulminArgumentAnalysis.analyze(content)` (lines 395-399): runs the
assistant's schema-guided extraction with the class template, the class
schema and the single `content` argument.  The assistant's extraction
behaviour is the spec-modelled `extract`; the model session and attempt
bound are the collaborator's parameters. -/
def analyze (content : String) (complete : Nat → Except Unit String)
    (maxAttempts : Nat) :
    Except ExtractionError ExtractedRecord × List ExtractionAttempt :=
  extract toulminPrompt (analyzeArgs content) toulminSchema complete maxAttempts

/-! ## Proof-support definitions -/

/-- Brace depth after scanning a character list from depth `d`. -/
def depthAfter : List Char → Nat → Nat
  | [], d => d
  | c :: cs, d => depthAfter cs (stepDepth c d)

/-- Whether scanning a character list from depth `d` never meets a marker
character at depth zero (so `readValue` passes through it whole). -/
def noStop : List Char → Nat → Bool
  | [], _ => true
  | c :: cs, d => !(c = '@' && d == 0) && noStop cs (stepDepth c d)

/-- Each raw field's block is located among `blocks` by its name marker,
yielding exactly its value text. -/
def blocksFetch : RawFields → List (List Char × List Char) → Prop
  | .nil, _ => True
  | .cons nm rv rest, blocks =>
    blocks.find? (fun b => b.1 == nm.data) = some (nm.data, rawText rv) ∧
      blocksFetch rest blocks

/-! ## Segmentation lemmas: a conforming response scans back to its blocks -/

theorem plainChar_spec (c : Char) (h : plainChar c = true) :
    c ≠ '@' ∧ c ≠ '{' ∧ c ≠ '}' ∧ c ≠ ':' := by
  simp only [plainChar, Bool.not_eq_true', Bool.or_eq_false_iff,
    decide_eq_false_iff_not] at h
  exact ⟨h.1.1.1, h.1.1.2, h.1.2, h.2⟩

theorem depthAfter_append (a b : List Char) (d : Nat) :
    depthAfter (a ++ b) d = depthAfter b (depthAfter a d) := by
  induction a generalizing d with
  | nil => rfl
  | cons c cs ih => simp [depthAfter, ih]

theorem noStop_append (a b : List Char) (d : Nat) :
    noStop (a ++ b) d = (noStop a d && noStop b (depthAfter a d)) := by
  induction a generalizing d with
  | nil => simp [noStop, depthAfter]
  | cons c cs ih => simp [noStop, depthAfter, ih, Bool.and_assoc]

theorem plain_depthAfter (l : List Char) (h : l.all plainChar = true) (d : Nat) :
    depthAfter l d = d := by
  induction l generalizing d with
  | nil => rfl
  | cons c cs ih =>
    simp only [List.all_cons, Bool.and_eq_true] at h
    obtain ⟨-, h2, h3, -⟩ := plainChar_spec c h.1
    simp [depthAfter, stepDepth, h2, h3, ih h.2]

theorem plain_noStop (l : List Char) (h : l.all plainChar = true) (d : Nat) :
    noStop l d = true := by
  induction l generalizing d with
  | nil => rfl
  | cons c cs ih =>
    simp only [List.all_cons, Bool.and_eq_true] at h
    obtain ⟨h1, -, -, -⟩ := plainChar_spec c h.1
    simp [noStop, h1, ih h.2]

theorem readValue_through (v rest : List Char) (d : Nat) (h : noStop v d = true) :
    readValue (v ++ rest) d =
      (v ++ (readValue rest (depthAfter v d)).1, (readValue rest (depthAfter v d)).2) := by
  induction v generalizing d with
  | nil => simp [depthAfter]
  | cons c cs ih =>
    simp only [noStop, Bool.and_eq_true, Bool.not_eq_true'] at h
    simp [readValue, h.1, ih _ h.2, depthAfter]

mutual
theorem rawText_noStop : ∀ (rv : RawVal), cleanV rv = true → ∀ d : Nat,
    noStop (rawText rv) d = true ∧ depthAfter (rawText rv) d = d
  | .prim s, h, d => by
    simp only [cleanV] at h
    exact ⟨plain_noStop s h d, plain_depthAfter s h d⟩
  | .sub fs, h, d => by
    simp only [cleanV] at h
    have hf := renderBlocks_noStop fs h d
    have hne : ('{' : Char) ≠ '@' := by decide
    have hne2 : ('}' : Char) ≠ '@' := by decide
    constructor
    · simp [rawText, noStop, stepDepth, noStop_append, hne, hne2, hf.1, hf.2]
    · simp [rawText, depthAfter, stepDepth, depthAfter_append, hf.2]

theorem renderBlocks_noStop : ∀ (fs : RawFields), cleanF fs = true → ∀ d : Nat,
    noStop (renderBlocks fs) (d + 1) = true ∧
      depthAfter (renderBlocks fs) (d + 1) = d + 1
  | .nil, _, d => by simp [renderBlocks, noStop, depthAfter]
  | .cons nm rv rest, h, d => by
    simp only [cleanF, Bool.and_eq_true] at h
    obtain ⟨⟨h1, h2⟩, h3⟩ := h
    have hv := rawText_noStop rv h2 (d + 1)
    have hr := renderBlocks_noStop rest h3 d
    have hco : (':' : Char) ≠ '@' := by decide
    have hco2 : (':' : Char) ≠ '{' := by decide
    have hco3 : (':' : Char) ≠ '}' := by decide
    constructor
    · simp [renderBlocks, noStop, stepDepth, noStop_append, depthAfter_append,
        plain_noStop nm.data h1, plain_depthAfter nm.data h1, hco, hco2, hco3,
        hv.1, hv.2, hr.1]
    · simp [renderBlocks, depthAfter, stepDepth, depthAfter_append,
        plain_depthAfter nm.data h1, hco2, hco3, hv.2, hr.2]
end

theorem readName_plain (n r : List Char) (h : n.all plainChar = true) :
    readName (n ++ ':' :: r) = some (n, r) := by
  induction n with
  | nil => simp [readName]
  | cons c cs ih =>
    simp only [List.all_cons, Bool.and_eq_true] at h
    obtain ⟨-, -, -, h4⟩ := plainChar_spec c h.1
    simp [readName, h4, ih h.2]

theorem readValue_render0 (fs : RawFields) :
    readValue (renderBlocks fs) 0 = ([], renderBlocks fs) := by
  cases fs with
  | nil => simp [renderBlocks, readValue]
  | cons nm rv rest => simp [renderBlocks, readValue]

theorem rawCount_le_renderLength : ∀ (fs : RawFields),
    rawCount fs ≤ (renderBlocks fs).length
  | .nil => by simp [rawCount, renderBlocks]
  | .cons nm rv rest => by
    have ih := rawCount_le_renderLength rest
    simp only [rawCount, renderBlocks, List.length_cons, List.length_append]
    omega

theorem scanBlocksF_render : ∀ (fs : RawFields), cleanF fs = true →
    ∀ fuel : Nat, rawCount fs < fuel →
      scanBlocksF fuel (renderBlocks fs) = rawBlocks fs
  | .nil, _, fuel, hf => by
    cases fuel with
    | zero => omega
    | succ fuel' => simp [renderBlocks, scanBlocksF, dropToMarker, rawBlocks]
  | .cons nm rv rest, h, fuel, hf => by
    cases fuel with
    | zero => omega
    | succ fuel' =>
      simp only [cleanF, Bool.and_eq_true] at h
      obtain ⟨⟨h1, h2⟩, h3⟩ := h
      have hns : noStop (rawText rv) 0 = true := (rawText_noStop rv h2 0).1
      have hda : depthAfter (rawText rv) 0 = 0 := (rawText_noStop rv h2 0).2
      have hrv := readValue_through (rawText rv) (renderBlocks rest) 0 hns
      rw [hda, readValue_render0 rest] at hrv
      simp [renderBlocks, scanBlocksF, dropToMarker,
        readName_plain nm.data _ h1, hrv, rawBlocks,
        scanBlocksF_render rest h3 fuel' (by simp only [rawCount] at hf; omega)]

theorem scanBlocks_render (fs : RawFields) (h : cleanF fs = true) :
    scanBlocks (renderBlocks fs) = rawBlocks fs := by
  have := rawCount_le_renderLength fs
  exact scanBlocksF_render fs h _ (by omega)

/-! ## Locating blocks by name and the conforming-response round trip -/

theorem data_beq_false_of_ne {a b : String} (h : a ≠ b) :
    (a.data == b.data) = false := by
  refine beq_eq_false_iff_ne.mpr fun hd => h (String.ext hd)

theorem blocksFetch_cons : ∀ (fs : RawFields)
    (b : List Char × List Char) (blocks : List (List Char × List Char)),
    (∀ nm ∈ rawNames fs, b.1 ≠ nm.data) → blocksFetch fs blocks →
    blocksFetch fs (b :: blocks)
  | .nil, _, _, _, _ => trivial
  | .cons nm rv rest, b, blocks, hb, h => by
    obtain ⟨hfind, hrest⟩ := h
    refine ⟨?_, blocksFetch_cons rest b blocks
      (fun n hn => hb n (by simp [rawNames, hn])) hrest⟩
    rw [List.find?_cons_of_neg, hfind]
    simp only [Bool.not_eq_true]
    exact (beq_eq_false_iff_ne).mpr (hb nm (by simp [rawNames]))

theorem blocksFetch_self : ∀ (fs : RawFields), (rawNames fs).Nodup →
    blocksFetch fs (rawBlocks fs)
  | .nil, _ => trivial
  | .cons nm rv rest, hnd => by
    simp only [rawNames, List.nodup_cons] at hnd
    refine ⟨by simp [rawBlocks], ?_⟩
    refine blocksFetch_cons rest _ _ (fun n hn => ?_) (blocksFetch_self rest hnd.2)
    intro hd
    refine hnd.1 ?_
    have he : nm = n := String.ext hd
    exact he ▸ hn

theorem parseFields_eq_decodeFields : ∀ (S : SchemaFields) (fs : RawFields)
    (blocks : List (List Char × List Char)),
    fieldNames S = rawNames fs → blocksFetch fs blocks →
    parseFields S blocks = decodeFields S fs
  | .nil, .nil, blocks, _, _ => by simp [parseFields, decodeFields]
  | .nil, .cons _ _ _, _, halign, _ => by simp [fieldNames, rawNames] at halign
  | .cons _ _ _ _, .nil, _, halign, _ => by simp [fieldNames, rawNames] at halign
  | .cons nm k hint rest, .cons nm2 rv rfs, blocks, halign, hfetch => by
    obtain ⟨heq, halign'⟩ : nm = nm2 ∧ fieldNames rest = rawNames rfs := by
      simpa [fieldNames, rawNames] using halign
    subst heq
    obtain ⟨hfind, hfetch'⟩ := hfetch
    simp [parseFields, decodeFields, hfind,
      parseFields_eq_decodeFields rest rfs blocks halign' hfetch']

theorem parse_render (S : SchemaFields) (fs : RawFields)
    (hclean : cleanF fs = true) (halign : fieldNames S = rawNames fs)
    (hnd : (rawNames fs).Nodup) :
    parse ⟨renderBlocks fs⟩ S = decodeFields S fs := by
  show parseFields S (scanBlocks (renderBlocks fs)) = _
  rw [scanBlocks_render fs hclean]
  exact parseFields_eq_decodeFields S fs _ halign (blocksFetch_self fs hnd)

theorem fieldNames_textSchemaOf (names : List String) :
    fieldNames (textSchemaOf names) = names := by
  induction names with
  | nil => rfl
  | cons n ns ih => simp [textSchemaOf, fieldNames, ih]

theorem rawNames_rawOfTexts (l : List (String × String)) :
    rawNames (rawOfTexts l) = l.map Prod.fst := by
  induction l with
  | nil => rfl
  | cons p ps ih => simp [rawOfTexts, rawNames, ih]

theorem decodeFields_textOnly (l : List (String × String))
    (htrim : ∀ p ∈ l, trimChars p.2.data = p.2.data) :
    decodeFields (textSchemaOf (l.map Prod.fst)) (rawOfTexts l) =
      .ok (l.map (fun p => (p.1, Value.vText p.2))) := by
  induction l with
  | nil => rfl
  | cons p ps ih =>
    have h1 := htrim p (by simp)
    have h2 := ih (fun q hq => htrim q (by simp [hq]))
    have h3 : (⟨p.2.data⟩ : String) = p.2 := String.ext rfl
    simp [textSchemaOf, rawOfTexts, decodeFields, rawText, coerce, h1, h2, h3]
    rfl

/-- C1: for every schema S and every response string that conforms exactly
to S's per-field block framing convention (the rendered framing of clean raw
segments, one block per schema field) with valid values for each field's
kind (the field-wise decode succeeds), `parse` succeeds and returns the
record of decoded values; in particular, for schemas of trivial text
fields, rendering the framing for a record of texts and parsing it back
recovers identical field values. -/
theorem C1_parse_conforming_roundtrip :
    (∀ (S : SchemaFields) (fs : RawFields) (rec : ExtractedRecord),
      cleanF fs = true → fieldNames S = rawNames fs → (rawNames fs).Nodup →
      decodeFields S fs = .ok rec →
      parse ⟨renderBlocks fs⟩ S = .ok rec) ∧
    (∀ l : List (String × String),
      cleanF (rawOfTexts l) = true → (l.map Prod.fst).Nodup →
      (∀ p ∈ l, trimChars p.2.data = p.2.data) →
      parse ⟨renderBlocks (rawOfTexts l)⟩ (textSchemaOf (l.map Prod.fst)) =
        .ok (l.map (fun p => (p.1, Value.vText p.2)))) := by
  constructor
  · intro S fs rec h1 h2 h3 h4
    rw [parse_render S fs h1 h2 h3, h4]
  · intro l hclean hnd htrim
    have halign : fieldNames (textSchemaOf (l.map Prod.fst)) =
        rawNames (rawOfTexts l) := by
      rw [fieldNames_textSchemaOf, rawNames_rawOfTexts]
    have hnd' : (rawNames (rawOfTexts l)).Nodup := by
      rw [rawNames_rawOfTexts]; exact hnd
    rw [parse_render _ _ hclean halign hnd', decodeFields_textOnly l htrim]

/-- Witness for C1: a concrete two-field schema (text and number) whose
conforming rendered response parses back to the decoded record. -/
theorem C1_witness :
    parse ⟨renderBlocks (.cons "claim" (.prim "hello".data)
        (.cons "n" (.prim " 42".data) .nil))⟩
      (.cons "claim" .text none (.cons "n" .number none .nil))
      = .ok [("claim", .vText "hello"), ("n", .vNumber 42)] :=
  C1_parse_conforming_roundtrip.1 _ _ _ (by rfl) (by rfl) (by decide) (by rfl)

/-! ## Small reduction lemmas for the Except monad -/

@[simp] theorem doBind_ok {ε α β : Type} (a : α) (f : α → Except ε β) :
    (do let x ← (Except.ok a : Except ε α); f x) = f a := rfl

@[simp] theorem doBind_error {ε α β : Type} (e : ε) (f : α → Except ε β) :
    (do let x ← (Except.error e : Except ε α); f x) = .error e := rfl

@[simp] theorem exBind_ok {ε α β : Type} (a : α) (f : α → Except ε β) :
    (Except.ok a : Except ε α).bind f = f a := rfl

@[simp] theorem exBind_error {ε α β : Type} (e : ε) (f : α → Except ε β) :
    (Except.error e : Except ε α).bind f = .error e := rfl

@[simp] theorem exMap_ok {ε α β : Type} (f : α → β) (a : α) :
    Except.map f (.ok a : Except ε α) = .ok (f a) := rfl

@[simp] theorem exMap_error {ε α β : Type} (f : α → β) (e : ε) :
    Except.map f (.error e : Except ε α) = .error e := rfl

/-! ## Append lemmas (for the missing-field property) -/

theorem rawBlocks_append : ∀ (a b : RawFields),
    rawBlocks (appendF a b) = rawBlocks a ++ rawBlocks b
  | .nil, b => by simp [appendF, rawBlocks]
  | .cons nm rv rest, b => by
    simp [appendF, rawBlocks, rawBlocks_append rest b]

theorem rawNames_append : ∀ (a b : RawFields),
    rawNames (appendF a b) = rawNames a ++ rawNames b
  | .nil, b => by simp [appendF, rawNames]
  | .cons nm rv rest, b => by
    simp [appendF, rawNames, rawNames_append rest b]

theorem fieldNames_appendS : ∀ (a b : SchemaFields),
    fieldNames (appendS a b) = fieldNames a ++ fieldNames b
  | .nil, b => by simp [appendS, fieldNames]
  | .cons nm k h rest, b => by
    simp [appendS, fieldNames, fieldNames_appendS rest b]

theorem parseFields_append : ∀ (a b : SchemaFields)
    (blocks : List (List Char × List Char)),
    parseFields (appendS a b) blocks =
      (parseFields a blocks).bind
        (fun r1 => (parseFields b blocks).map (fun r2 => r1 ++ r2))
  | .nil, b, blocks => by
    cases hb : parseFields b blocks <;> simp [appendS, parseFields, hb]
  | .cons nm k hint rest, b, blocks => by
    simp only [appendS, parseFields]
    cases hf : blocks.find? (fun x => x.1 == nm.data) with
    | none => simp
    | some blk =>
      cases hc : coerce nm k blk.2 with
      | error e => simp [hc]
      | ok v =>
        have ih := parseFields_append rest b blocks
        cases hr : parseFields rest blocks with
        | error e => simp [hc, hr, ih]
        | ok r1 =>
          cases hb : parseFields b blocks with
          | error e => simp [hc, hr, hb, ih]
          | ok r2 => simp [hc, hr, hb, ih]

theorem blocksFetch_append_right : ∀ (fs : RawFields)
    (blocks more : List (List Char × List Char)),
    blocksFetch fs blocks → blocksFetch fs (blocks ++ more)
  | .nil, _, _, _ => trivial
  | .cons nm rv rest, blocks, more, h => by
    obtain ⟨hfind, hrest⟩ := h
    exact ⟨by simp [hfind], blocksFetch_append_right rest blocks more hrest⟩

theorem find?_rawBlocks_none : ∀ (fs : RawFields) (nm : String),
    nm ∉ rawNames fs →
    (rawBlocks fs).find? (fun b => b.1 == nm.data) = none
  | .nil, nm, _ => rfl
  | .cons nm0 rv rest, nm, h => by
    simp only [rawNames, List.mem_cons, not_or] at h
    simp only [rawBlocks, List.find?_cons_of_neg, data_beq_false_of_ne
      (fun he => h.1 he.symm), Bool.false_eq_true, not_false_iff]
    exact find?_rawBlocks_none rest nm h.2

/-- C4: for every schema, parsing a response in which exactly one required
field's name marker is absent — and that otherwise conforms, with the
fields before the absent one decoding successfully — fails with a
`missingField` ExtractionError naming exactly that field, and no other
field is reported. -/
theorem C4_missing_field_reported
    (S1 S2 : SchemaFields) (nm : String) (k : FieldKind) (hint : Option String)
    (fs1 fs2 : RawFields) (rec1 : ExtractedRecord)
    (hclean : cleanF (appendF fs1 fs2) = true)
    (halign1 : fieldNames S1 = rawNames fs1)
    (halign2 : fieldNames S2 = rawNames fs2)
    (hnd : (fieldNames (appendS S1 (.cons nm k hint S2))).Nodup)
    (hdec : decodeFields S1 fs1 = .ok rec1) :
    parse ⟨renderBlocks (appendF fs1 fs2)⟩ (appendS S1 (.cons nm k hint S2)) =
      .error ⟨.missingField, some nm, "marker not found"⟩ := by
  rw [fieldNames_appendS, fieldNames] at hnd
  rw [List.nodup_append] at hnd
  obtain ⟨hnd1, hnd2, hdisj⟩ := hnd
  have hnm1 : nm ∉ fieldNames S1 := fun hmem => hdisj hmem (by simp)
  have hnm2 : nm ∉ fieldNames S2 := (List.nodup_cons.mp hnd2).1
  show parseFields _ (scanBlocks (renderBlocks (appendF fs1 fs2))) = _
  rw [scanBlocks_render _ hclean, rawBlocks_append, parseFields_append]
  have hfetch : blocksFetch fs1 (rawBlocks fs1 ++ rawBlocks fs2) :=
    blocksFetch_append_right fs1 _ _
      (blocksFetch_self fs1 (halign1 ▸ hnd1))
  rw [parseFields_eq_decodeFields S1 fs1 _ halign1 hfetch, hdec]
  have hmiss : ((rawBlocks fs1 ++ rawBlocks fs2).find?
      (fun b => b.1 == nm.data)) = none := by
    rw [List.find?_append, find?_rawBlocks_none fs1 nm (halign1 ▸ hnm1),
      find?_rawBlocks_none fs2 nm (halign2 ▸ hnm2)]
    rfl
  simp [parseFields, hmiss]

/-- Witness for C4: a two-field schema whose response carries only the
first field's block; parsing reports exactly the absent field. -/
theorem C4_witness :
    parse ⟨renderBlocks (appendF (.cons "claim" (.prim "hello".data) .nil) .nil)⟩
      (appendS (.cons "claim" .text none .nil)
        (.cons "grounds" .text none .nil))
      = .error ⟨.missingField, some "grounds", "marker not found"⟩ :=
  C4_missing_field_reported (.cons "claim" .text none .nil) .nil
    "grounds" .text none (.cons "claim" (.prim "hello".data) .nil) .nil
    [("claim", .vText "hello")] (by rfl) (by rfl) (by rfl) (by decide) (by rfl)

/-! ## Field-level facts about a successful parse -/

theorem parseFields_success_field : ∀ (S : SchemaFields)
    (blocks : List (List Char × List Char)) (rec : ExtractedRecord)
    (nm : String) (k : FieldKind),
    parseFields S blocks = .ok rec → lookupKind S nm = some k →
    ∃ b v, blocks.find? (fun x => x.1 == nm.data) = some b ∧
      coerce nm k b.2 = .ok v ∧ List.lookup nm rec = some v
  | .nil, _, _, _, _, _, hlk => by simp [lookupKind] at hlk
  | .cons nm0 k0 hint rest, blocks, rec, nm, k, hok, hlk => by
    cases hf : blocks.find? (fun x => x.1 == nm0.data) with
    | none => simp [parseFields, hf] at hok
    | some b0 =>
      simp only [parseFields, hf] at hok
      cases hc : coerce nm0 k0 b0.2 with
      | error e => rw [hc] at hok; simp at hok
      | ok v0 =>
        rw [hc] at hok
        cases hr : parseFields rest blocks with
        | error e => rw [hr] at hok; simp at hok
        | ok r' =>
          rw [hr] at hok
          simp only [doBind_ok, Except.ok.injEq] at hok
          subst hok
          by_cases hnm : nm0 = nm
          · subst hnm
            simp only [lookupKind, if_pos rfl, Option.some.injEq,
              if_true, eq_self_iff_true] at hlk
            subst hlk
            exact ⟨b0, v0, hf, hc, by simp [List.lookup]⟩
          · simp only [lookupKind, if_neg hnm] at hlk
            obtain ⟨b, v, h1, h2, h3⟩ :=
              parseFields_success_field rest blocks r' nm k hr hlk
            refine ⟨b, v, h1, h2, ?_⟩
            have hne : (nm == nm0) = false :=
              beq_eq_false_iff_ne.mpr (fun he => hnm he.symm)
            simpa [List.lookup, hne] using h3

/-- C7: parsing is compositional over nesting: when the outer parse
succeeds, a field of kind nested(S2) whose located sub-block is correctly
framed carries exactly the record that an independent parse of that
isolated sub-block against S2 alone produces. -/
theorem C7_nested_compositional
    (S S2 : SchemaFields) (nm : String) (raw : String) (rec : ExtractedRecord)
    (b : List Char × List Char) (mid : List Char)
    (hok : parse raw S = .ok rec)
    (hlk : lookupKind S nm = some (.nested S2))
    (hfind : (scanBlocks raw.data).find? (fun x => x.1 == nm.data) = some b)
    (hbrace : trimChars b.2 = '{' :: mid)
    (hlast : mid.getLast? = some '}') :
    ∃ subrec, parse ⟨mid.dropLast⟩ S2 = .ok subrec ∧
      List.lookup nm rec = some (.vRecord subrec) := by
  obtain ⟨bb, v, h1, h2, h3⟩ := parseFields_success_field S _ rec nm _ hok hlk
  rw [hfind, Option.some.injEq] at h1
  subst h1
  rw [show coerce nm (.nested S2) b.2 =
      (match trimChars b.2 with
        | '{' :: rest =>
          if rest.getLast? = some '}' then
            (parseFields S2 (scanBlocks rest.dropLast)).map .vRecord
          else .error ⟨.typeMismatch, some nm, ⟨trimChars b.2⟩⟩
        | _ => .error ⟨.typeMismatch, some nm, ⟨trimChars b.2⟩⟩) from by
    simp [coerce]] at h2
  rw [hbrace] at h2
  simp only [hlast] at h2
  cases hp : parseFields S2 (scanBlocks mid.dropLast) with
  | error e => rw [hp] at h2; simp at h2
  | ok subrec =>
    rw [hp] at h2
    simp at h2
    exact ⟨subrec, hp, by rw [h3, h2]⟩

/-- Witness for C7: a concrete nested schema whose outer response parses,
with the nested field equal to the independent parse of its sub-block. -/
theorem C7_witness :
    ∃ subrec,
      parse ⟨(("@a:1\x7d".data).dropLast : List Char)⟩
        (.cons "a" .number none .nil) = .ok subrec ∧
      List.lookup "outer"
        [("outer", Value.vRecord [("a", Value.vNumber 1)]), ("c", Value.vText "x")]
        = some (.vRecord subrec) :=
  C7_nested_compositional
    (.cons "outer" (.nested (.cons "a" .number none .nil)) none
      (.cons "c" .text none .nil))
    (.cons "a" .number none .nil) "outer" "@outer:\x7b@a:1\x7d@c:x"
    [("outer", .vRecord [("a", .vNumber 1)]), ("c", .vText "x")]
    ("outer".data, "\x7b@a:1\x7d".data) "@a:1\x7d".data
    (by rfl) (by rfl) (by rfl) (by rfl) (by rfl)

/-- C5: enum coercion matches case-insensitively against the allowed
values and rejects anything else; for allowed values support/attack, input
SUPPORT succeeds with the canonical value "support", while input neutral
fails with an enumMismatch carrying the attempted raw value in the
detail. -/
theorem C5_enum_case_insensitive :
    (∀ (allowed : List String) (nm : String) (seg : List Char),
      (∃ a, a ∈ allowed ∧ lowerChars a.data = lowerChars (trimChars seg) ∧
        coerce nm (.enum allowed) seg = .ok (.vText a)) ∨
      ((∀ a ∈ allowed, lowerChars a.data ≠ lowerChars (trimChars seg)) ∧
        coerce nm (.enum allowed) seg =
          .error ⟨.enumMismatch, some nm, ⟨trimChars seg⟩⟩)) ∧
    coerce "relation" (.enum ["support", "attack"]) "SUPPORT".data =
      .ok (.vText "support") ∧
    coerce "relation" (.enum ["support", "attack"]) "neutral".data =
      .error ⟨.enumMismatch, some "relation", "neutral"⟩ := by
  refine ⟨?_, by rfl, by rfl⟩
  intro allowed nm seg
  cases hf : allowed.find?
      (fun a => lowerChars a.data == lowerChars (trimChars seg)) with
  | some a =>
    left
    have hp := List.find?_some hf
    have hm := List.mem_of_find?_eq_some hf
    exact ⟨a, hm, by simpa using hp, by simp [coerce, hf]⟩
  | none =>
    right
    have hall := List.find?_eq_none.mp hf
    exact ⟨fun a ha => by simpa using hall a ha, by simp [coerce, hf]⟩

/-- Witness for C5: the general disjunction applied at a concrete
enumeration and segment. -/
theorem C5_witness :
    (∃ a, a ∈ ["support", "attack"] ∧
      lowerChars a.data = lowerChars (trimChars " Attack ".data) ∧
      coerce "rel" (.enum ["support", "attack"]) " Attack ".data =
        .ok (.vText a)) ∨
    ((∀ a ∈ ["support", "attack"],
      lowerChars a.data ≠ lowerChars (trimChars " Attack ".data)) ∧
      coerce "rel" (.enum ["support", "attack"]) " Attack ".data =
        .error ⟨.enumMismatch, some "rel", ⟨trimChars " Attack ".data⟩⟩) :=
  C5_enum_case_insensitive.1 ["support", "attack"] "rel" " Attack ".data

/-- C6: for a list-of-number field, "1, 2, 3" parses to the ordered
sequence [1,2,3]; "1, x, 3" fails with a typeMismatch naming the list
field; and coercion stops at the first bad element — after the bad second
element, the remaining elements are never attempted (the outcome is the
same whatever they are). -/
theorem C6_list_number_fail_fast :
    parse "@scores:1, 2, 3" (.cons "scores" (.listOf .number) none .nil) =
      .ok [("scores", .vList [.vNumber 1, .vNumber 2, .vNumber 3])] ∧
    parse "@scores:1, x, 3" (.cons "scores" (.listOf .number) none .nil) =
      .error ⟨.typeMismatch, some "scores", "x"⟩ ∧
    (∀ es : List (List Char),
      mapMExcept (fun e => coerce "scores" .number (trimChars e))
        ("1".data :: " x".data :: es) =
        .error ⟨.typeMismatch, some "scores", "x"⟩) := by
  refine ⟨by rfl, by rfl, ?_⟩
  intro es
  have h1 : coerce "scores" .number (trimChars "1".data) = .ok (.vNumber 1) := rfl
  have h2 : coerce "scores" .number (trimChars " x".data) =
    .error ⟨.typeMismatch, some "scores", "x"⟩ := rfl
  simp [mapMExcept, h1, h2]

/-- Witness for C6: the fail-fast conjunct applied at a concrete tail. -/
theorem C6_witness :
    mapMExcept (fun e => coerce "scores" .number (trimChars e))
      ("1".data :: " x".data :: [" 3".data]) =
      .error ⟨.typeMismatch, some "scores", "x"⟩ :=
  C6_list_number_fail_fast.2.2 [" 3".data]

/-! ## RetryController properties -/

theorem render_of_substitute (t : String) (args : List (String × String))
    (schema : SchemaFields) (pe : Option ExtractionError) (body : String)
    (h : substitute t args = .ok body) :
    render t args schema pe =
      .ok (body ++ "\n" ++ correctiveNote pe ++ formatBlock schema) := by
  simp [render, h]

/-- C3: with max_attempts = 1 and a first response that fails to parse, the
controller returns an exhausted error wrapping the last parse failure plus
the attempt count, and issues no second model call (the attempt history has
exactly one entry). -/
theorem C3_single_shot_exhausted
    (template : String) (args : List (String × String)) (schema : SchemaFields)
    (complete : Nat → Except Unit String) (body r0 : String)
    (pe : ExtractionError)
    (hsub : substitute template args = .ok body)
    (hc : complete 0 = .ok r0)
    (hp : parse r0 schema = .error pe) :
    extract template args schema complete 1 =
      (.error ⟨.exhausted, pe.field, pe.detail ++ " (attempts: " ++ toString 1 ++ ")"⟩,
        [⟨body ++ "\n" ++ correctiveNote none ++ formatBlock schema,
          some r0, .error pe⟩]) := by
  simp [extract, extractLoop,
    render_of_substitute template args schema none body hsub, hc, hp]

/-- Witness for C3: a one-field schema, a template with one placeholder,
and a first response with no marker. -/
theorem C3_witness :
    extract "T: {content}" [("content", "d")] (.cons "claim" .text none .nil)
      (fun _ => .ok "junk") 1 =
      (.error ⟨.exhausted, some "claim",
          "marker not found" ++ " (attempts: " ++ toString 1 ++ ")"⟩,
        [⟨"T: d" ++ "\n" ++ correctiveNote none ++
            formatBlock (.cons "claim" .text none .nil),
          some "junk",
          .error ⟨.missingField, some "claim", "marker not found"⟩⟩]) :=
  C3_single_shot_exhausted "T: {content}" [("content", "d")]
    (.cons "claim" .text none .nil) (fun _ => .ok "junk") "T: d" "junk"
    ⟨.missingField, some "claim", "marker not found"⟩ (by rfl) (by rfl) (by rfl)

theorem field_infix_of_corrective (body fb : String) (e : ExtractionError)
    (f : String) (hf : e.field = some f) :
    f.data <:+: (body ++ "\n" ++ correctiveNote (some e) ++ fb).data := by
  refine ⟨(body ++ "\n" ++
      "The previous response could not be parsed. Field ").data,
    (" failed: " ++ e.detail ++
      ". Please follow the format exactly.\n" ++ fb).data, ?_⟩
  simp [correctiveNote, hf, String.data_append]

/-- C2: with max_attempts = 3, two malformed responses followed by a
well-formed one, the controller returns Success, issues exactly 3 model
calls (the attempt history has exactly three entries), and the 2nd and 3rd
rendered prompts each contain the field name of the immediately preceding
parse error. -/
theorem C2_three_attempt_success
    (template : String) (args : List (String × String)) (schema : SchemaFields)
    (complete : Nat → Except Unit String) (body r0 r1 r2 : String)
    (e1 e2 : ExtractionError) (f1 f2 : String) (rec : ExtractedRecord)
    (hsub : substitute template args = .ok body)
    (hc0 : complete 0 = .ok r0) (hc1 : complete 1 = .ok r1)
    (hc2 : complete 2 = .ok r2)
    (hp0 : parse r0 schema = .error e1) (hf1 : e1.field = some f1)
    (hp1 : parse r1 schema = .error e2) (hf2 : e2.field = some f2)
    (hp2 : parse r2 schema = .ok rec) :
    ∃ p0 p1 p2 : String,
      extract template args schema complete 3 =
        (.ok rec, [⟨p0, some r0, .error e1⟩, ⟨p1, some r1, .error e2⟩,
          ⟨p2, some r2, .ok rec⟩]) ∧
      f1.data <:+: p1.data ∧ f2.data <:+: p2.data := by
  refine ⟨body ++ "\n" ++ correctiveNote none ++ formatBlock schema,
    body ++ "\n" ++ correctiveNote (some e1) ++ formatBlock schema,
    body ++ "\n" ++ correctiveNote (some e2) ++ formatBlock schema,
    ?_, field_infix_of_corrective body (formatBlock schema) e1 f1 hf1,
    field_infix_of_corrective body (formatBlock schema) e2 f2 hf2⟩
  simp [extract, extractLoop, render_of_substitute template args schema _ body hsub,
    hc0, hc1, hc2, hp0, hp1, hp2]

/-- Witness for C2: a concrete script whose first two responses lack the
field marker and whose third carries it. -/
theorem C2_witness :
    ∃ p0 p1 p2 : String,
      extract "T: {content}" [("content", "d")] (.cons "claim" .text none .nil)
          (fun n => .ok (if n = 0 then "" else if n = 1 then "junk" else "@claim:done")) 3 =
        (.ok [("claim", .vText "done")],
          [⟨p0, some "", .error ⟨.missingField, some "claim", "marker not found"⟩⟩,
           ⟨p1, some "junk", .error ⟨.missingField, some "claim", "marker not found"⟩⟩,
           ⟨p2, some "@claim:done", .ok [("claim", .vText "done")]⟩]) ∧
      "claim".data <:+: p1.data ∧ "claim".data <:+: p2.data :=
  C2_three_attempt_success "T: {content}" [("content", "d")]
    (.cons "claim" .text none .nil)
    (fun n => .ok (if n = 0 then "" else if n = 1 then "junk" else "@claim:done"))
    "T: d" "" "junk" "@claim:done"
    ⟨.missingField, some "claim", "marker not found"⟩
    ⟨.missingField, some "claim", "marker not found"⟩
    "claim" "claim" [("claim", .vText "done")]
    (by rfl) (by rfl) (by rfl) (by rfl) (by rfl) (by rfl) (by rfl) (by rfl) (by rfl)

/-- C8: the controller retries only on parse failures — a failure raised by
the ModelSession completion itself is propagated immediately on first
occurrence as a modelUnavailable ExtractionError, with no further model
call, from any attempt of the loop and in particular regardless of how many
attempts remain. -/
theorem C8_model_failure_propagates :
    (∀ (template : String) (args : List (String × String))
      (schema : SchemaFields) (complete : Nat → Except Unit String)
      (body : String) (attempt : Nat) (prior : Option ExtractionError)
      (log : List ExtractionAttempt) (remaining : Nat),
      substitute template args = .ok body →
      complete attempt = .error () →
      extractLoop template args schema complete attempt prior log (remaining + 1) =
        (.error ⟨.modelUnavailable, none, "model session failed"⟩,
          log ++ [⟨body ++ "\n" ++ correctiveNote prior ++ formatBlock schema,
            none, .error ⟨.modelUnavailable, none, "model session failed"⟩⟩])) ∧
    (∀ (template : String) (args : List (String × String))
      (schema : SchemaFields) (complete : Nat → Except Unit String)
      (body : String) (m : Nat),
      substitute template args = .ok body →
      complete 0 = .error () →
      extract template args schema complete (m + 1) =
        (.error ⟨.modelUnavailable, none, "model session failed"⟩,
          [⟨body ++ "\n" ++ correctiveNote none ++ formatBlock schema, none,
            .error ⟨.modelUnavailable, none, "model session failed"⟩⟩])) := by
  have hloop : ∀ (template : String) (args : List (String × String))
      (schema : SchemaFields) (complete : Nat → Except Unit String)
      (body : String) (attempt : Nat) (prior : Option ExtractionError)
      (log : List ExtractionAttempt) (remaining : Nat),
      substitute template args = .ok body →
      complete attempt = .error () →
      extractLoop template args schema complete attempt prior log (remaining + 1) =
        (.error ⟨.modelUnavailable, none, "model session failed"⟩,
          log ++ [⟨body ++ "\n" ++ correctiveNote prior ++ formatBlock schema,
            none, .error ⟨.modelUnavailable, none, "model session failed"⟩⟩]) := by
    intro template args schema complete body attempt prior log remaining hsub hc
    simp [extractLoop, render_of_substitute template args schema prior body hsub, hc]
  refine ⟨hloop, ?_⟩
  intro template args schema complete body m hsub hc
  simpa [extract] using
    hloop template args schema complete body 0 none [] m hsub hc

/-- Witness for C8: a session that fails at once is reported as
modelUnavailable after a single issued call, even with three attempts
allowed. -/
theorem C8_witness :
    extract "T: {content}" [("content", "d")] (.cons "claim" .text none .nil)
      (fun _ => .error ()) 3 =
      (.error ⟨.modelUnavailable, none, "model session failed"⟩,
        [⟨"T: d" ++ "\n" ++ correctiveNote none ++
            formatBlock (.cons "claim" .text none .nil), none,
          .error ⟨.modelUnavailable, none, "model session failed"⟩⟩]) :=
  C8_model_failure_propagates.2 "T: {content}" [("content", "d")]
    (.cons "claim" .text none .nil) (fun _ => .error ()) "T: d" 2
    (by rfl) (by rfl)

/-! ## Template-placeholder safety and the example's schema shape -/

theorem ph_subst_ok (args : List (String × String)) :
    ∀ (cs : List Char) (inPh : Bool) (nmAcc : List Char)
      (names : List String) (out : List Char),
      phAux cs inPh nmAcc = some names →
      (∀ n ∈ names, (args.find? (fun p => p.1.data == n.data)).isSome = true) →
      ∃ r, substAux args cs inPh nmAcc out = .ok r := by
  intro cs
  induction cs with
  | nil =>
    intro inPh nmAcc names out hph _
    cases inPh with
    | true => simp [phAux] at hph
    | false => exact ⟨_, rfl⟩
  | cons c cs ih =>
    intro inPh nmAcc names out hph hargs
    cases inPh with
    | false =>
      by_cases hc : c = '{'
      · simp only [phAux, if_pos hc] at hph
        simp only [substAux, if_pos hc]
        exact ih true [] names out hph hargs
      · simp only [phAux, if_neg hc] at hph
        simp only [substAux, if_neg hc]
        exact ih false [] names (c :: out) hph hargs
    | true =>
      by_cases hc : c = '}'
      · simp only [phAux, if_pos hc, Option.map_eq_some'] at hph
        obtain ⟨names', hph', hnames⟩ := hph
        subst hnames
        have hhead := hargs (⟨nmAcc.reverse⟩ : String) (by simp)
        rw [Option.isSome_iff_exists] at hhead
        obtain ⟨p, hp⟩ := hhead
        simp only [substAux, if_pos hc]
        rw [show args.find? (fun q => q.1.data == nmAcc.reverse) = some p from hp]
        exact ih false [] names' (p.2.data.reverse ++ out) hph'
          (fun n hn => hargs n (by simp [hn]))
      · simp only [phAux, if_neg hc] at hph
        simp only [substAux, if_neg hc]
        exact ih true (c :: nmAcc) names out hph hargs

theorem extractLoop_error_kind (template : String)
    (args : List (String × String)) (schema : SchemaFields)
    (complete : Nat → Except Unit String) (body : String)
    (hsub : substitute template args = .ok body) :
    ∀ (remaining attempt : Nat) (prior : Option ExtractionError)
      (log : List ExtractionAttempt) (e : ExtractionError),
      (extractLoop template args schema complete attempt prior log remaining).1 =
        .error e →
      e.kind ≠ .templateError := by
  intro remaining
  induction remaining with
  | zero =>
    intro attempt prior log e h
    simp only [extractLoop, Except.error.injEq] at h
    subst h
    decide
  | succ rem ih =>
    intro attempt prior log e h
    simp only [extractLoop,
      render_of_substitute template args schema prior body hsub] at h
    cases hc : complete attempt with
    | error u => simp only [hc] at h; simp at h; subst h; decide
    | ok raw =>
      simp only [hc] at h
      cases hp : parse raw schema with
      | ok rec => simp [hp] at h
      | error pe =>
        simp only [hp] at h
        by_cases hrem : rem = 0
        · subst hrem
          simp at h
          subst h
          exact fun hcontra => ErrKind.noConfusion hcontra
        · rw [if_neg hrem] at h
          exact ih (attempt + 1) (some pe) _ e h

set_option maxRecDepth 8000 in
/-- C9: the example's prompt template references exactly one named
placeholder, content, and `analyze(content)` supplies exactly that
argument, so for every input string the substitution step succeeds and a
templateError is unreachable from `analyze`. -/
theorem C9_template_placeholders_safe :
    placeholders toulminPrompt = some ["content"] ∧
    (∀ content : String, ∃ body : String,
      substitute toulminPrompt (analyzeArgs content) = .ok body) ∧
    (∀ (content : String) (complete : Nat → Except Unit String)
      (maxAttempts : Nat) (e : ExtractionError),
      (analyze content complete maxAttempts).1 = .error e →
      e.kind ≠ .templateError) := by
  have hph : placeholders toulminPrompt = some ["content"] := by rfl
  have hsub : ∀ content : String, ∃ body : String,
      substitute toulminPrompt (analyzeArgs content) = .ok body := by
    intro content
    have hargs : ∀ n ∈ (["content"] : List String),
        ((analyzeArgs content).find? (fun p => p.1.data == n.data)).isSome = true := by
      intro n hn
      simp only [List.mem_singleton] at hn
      subst hn
      rfl
    obtain ⟨r, hr⟩ := ph_subst_ok (analyzeArgs content) toulminPrompt.data
      false [] ["content"] [] hph hargs
    exact ⟨⟨r⟩, by simp [substitute, hr]⟩
  refine ⟨hph, hsub, ?_⟩
  intro content complete maxAttempts e h
  obtain ⟨body, hbody⟩ := hsub content
  exact extractLoop_error_kind toulminPrompt (analyzeArgs content)
    toulminSchema complete body hbody maxAttempts 0 none [] e h

set_option maxRecDepth 8000 in
/-- Witness for C9: a failing model session makes `analyze` surface a
modelUnavailable error, and the theorem shows it cannot be a
templateError. -/
theorem C9_witness :
    (⟨.modelUnavailable, none, "model session failed"⟩ : ExtractionError).kind ≠
      .templateError :=
  C9_template_placeholders_safe.2.2 "doc" (fun _ => .error ()) 1
    ⟨.modelUnavailable, none, "model session failed"⟩ (by rfl)

theorem parseFields_text_shape : ∀ (S : SchemaFields)
    (blocks : List (List Char × List Char)) (rec : ExtractedRecord),
    textOnly S = true → parseFields S blocks = .ok rec →
    rec.map Prod.fst = fieldNames S ∧ ∀ p ∈ rec, ∃ s, p.2 = Value.vText s
  | .nil, blocks, rec, _, hok => by
    simp only [parseFields, Except.ok.injEq] at hok
    subst hok
    simp [fieldNames]
  | .cons nm k hint rest, blocks, rec, htext, hok => by
    have hk : k = .text ∧ textOnly rest = true := by
      cases k <;> simp_all [textOnly]
    obtain ⟨hk1, hk2⟩ := hk
    subst hk1
    cases hf : blocks.find? (fun x => x.1 == nm.data) with
    | none => simp [parseFields, hf] at hok
    | some b =>
      simp only [parseFields, hf, coerce, doBind_ok] at hok
      cases hr : parseFields rest blocks with
      | error e => rw [hr] at hok; simp at hok
      | ok r' =>
        rw [hr] at hok
        simp only [doBind_ok, Except.ok.injEq] at hok
        subst hok
        obtain ⟨ih1, ih2⟩ := parseFields_text_shape rest blocks r' hk2 hr
        refine ⟨by simp [fieldNames, ih1], ?_⟩
        intro p hp
        rcases List.mem_cons.mp hp with hhead | htail
        · exact ⟨_, by rw [hhead]⟩
        · exact ih2 p htail

theorem extractLoop_ok_parse (template : String)
    (args : List (String × String)) (schema : SchemaFields)
    (complete : Nat → Except Unit String) :
    ∀ (remaining attempt : Nat) (prior : Option ExtractionError)
      (log : List ExtractionAttempt) (rec : ExtractedRecord),
      (extractLoop template args schema complete attempt prior log remaining).1 =
        .ok rec →
      ∃ raw, parse raw schema = .ok rec := by
  intro remaining
  induction remaining with
  | zero => intro attempt prior log rec h; simp [extractLoop] at h
  | succ rem ih =>
    intro attempt prior log rec h
    simp only [extractLoop] at h
    cases hrender : render template args schema prior with
    | error e => simp [hrender] at h
    | ok prompt =>
      simp only [hrender] at h
      cases hc : complete attempt with
      | error u => simp [hc] at h
      | ok raw =>
        simp only [hc] at h
        cases hp : parse raw schema with
        | ok rec' =>
          simp [hp] at h
          subst h
          exact ⟨raw, hp⟩
        | error pe =>
          simp only [hp] at h
          by_cases hrem : rem = 0
          · subst hrem; simp at h
          · rw [if_neg hrem] at h
            exact ih (attempt + 1) (some pe) _ rec h

/-- C10: every field of the example's schema is declared with kind text;
whenever a parse against it (in particular inside a successful `analyze`)
returns a record, that record maps exactly the six fields claim, grounds,
warrant, qualifier, rebuttal, backing — in order — to text values, and no
other fields exist. -/
theorem C10_all_fields_text :
    fieldNames toulminSchema =
      ["claim", "grounds", "warrant", "qualifier", "rebuttal", "backing"] ∧
    textOnly toulminSchema = true ∧
    (∀ (raw : String) (rec : ExtractedRecord),
      parse raw toulminSchema = .ok rec →
      rec.map Prod.fst =
        ["claim", "grounds", "warrant", "qualifier", "rebuttal", "backing"] ∧
      ∀ p ∈ rec, ∃ s, p.2 = Value.vText s) ∧
    (∀ (content : String) (complete : Nat → Except Unit String)
      (maxAttempts : Nat) (rec : ExtractedRecord),
      (analyze content complete maxAttempts).1 = .ok rec →
      rec.map Prod.fst =
        ["claim", "grounds", "warrant", "qualifier", "rebuttal", "backing"] ∧
      ∀ p ∈ rec, ∃ s, p.2 = Value.vText s) := by
  have hshape : ∀ (raw : String) (rec : ExtractedRecord),
      parse raw toulminSchema = .ok rec →
      rec.map Prod.fst =
        ["claim", "grounds", "warrant", "qualifier", "rebuttal", "backing"] ∧
      ∀ p ∈ rec, ∃ s, p.2 = Value.vText s := by
    intro raw rec hok
    obtain ⟨h1, h2⟩ := parseFields_text_shape toulminSchema _ rec (by rfl) hok
    exact ⟨by rw [h1]; rfl, h2⟩
  refine ⟨by rfl, by rfl, hshape, ?_⟩
  intro content complete maxAttempts rec h
  obtain ⟨raw, hraw⟩ := extractLoop_ok_parse toulminPrompt
    (analyzeArgs content) toulminSchema complete maxAttempts 0 none [] rec h
  exact hshape raw rec hraw

/-- Witness for C10: a concrete well-formed response parses to a record of
the six text fields in order. -/
theorem C10_witness :
    [("claim", Value.vText "a"), ("grounds", Value.vText "b"),
     ("warrant", Value.vText "c"), ("qualifier", Value.vText "d"),
     ("rebuttal", Value.vText "e"), ("backing", Value.vText "f")].map Prod.fst =
      ["claim", "grounds", "warrant", "qualifier", "rebuttal", "backing"] ∧
    ∀ p ∈ [("claim", Value.vText "a"), ("grounds", Value.vText "b"),
     ("warrant", Value.vText "c"), ("qualifier", Value.vText "d"),
     ("rebuttal", Value.vText "e"), ("backing", Value.vText "f")],
      ∃ s, p.2 = Value.vText s :=
  C10_all_fields_text.2.2.1
    "@claim:a@grounds:b@warrant:c@qualifier:d@rebuttal:e@backing:f"
    [("claim", .vText "a"), ("grounds", .vText "b"), ("warrant", .vText "c"),
     ("qualifier", .vText "d"), ("rebuttal", .vText "e"), ("backing", .vText "f")]
    (by rfl)

end SchemaGuided

